import Mathlib

set_option maxRecDepth 100000

/-!
Verification of the qebil utility layer (qebil/tools/util.py): document
tokenization, accession scanning, and integrity-verified FTP download.
Python byte strings are modelled as `List Nat`, text as `String`/`List Char`,
the filesystem and the network as explicit oracles.
-/

/-- Python list/string prefix test on character lists. -/
def isPrefixL : List Char → List Char → Bool
  | c :: cs, d :: ds => c == d && isPrefixL cs ds
  | [], _ => true
  | _, [] => false

/-- Python `t.find(stem)`: index of the first occurrence of `stem` in `t`,
`none` standing for the -1 returned when `stem` does not occur. -/
def strFindAux (stem : List Char) : List Char → Option Nat
  | [] => if isPrefixL stem [] then some 0 else none
  | c :: rest =>
    if isPrefixL stem (c :: rest) then some 0
    else (strFindAux stem rest).map (· + 1)

/-- Python `stem in t` for strings. -/
def containsSub (stem t : List Char) : Bool := (strFindAux stem t).isSome

/-! ## MD5 (hashlib.md5(...).hexdigest()) -/

def M32 : Nat := 4294967296

def mask32 : Nat := 4294967295

/-- 32-bit left rotation, for `x < 2^32`. -/
def rotl (x n : Nat) : Nat := ((x <<< n) % M32) ||| (x >>> (32 - n))

def md5K : List Nat :=
  [0xd76aa478, 0xe8c7b756, 0x242070db, 0xc1bdceee,
   0xf57c0faf, 0x4787c62a, 0xa8304613, 0xfd469501,
   0x698098d8, 0x8b44f7af, 0xffff5bb1, 0x895cd7be,
   0x6b901122, 0xfd987193, 0xa679438e, 0x49b40821,
   0xf61e2562, 0xc040b340, 0x265e5a51, 0xe9b6c7aa,
   0xd62f105d, 0x02441453, 0xd8a1e681, 0xe7d3fbc8,
   0x21e1cde6, 0xc33707d6, 0xf4d50d87, 0x455a14ed,
   0xa9e3e905, 0xfcefa3f8, 0x676f02d9, 0x8d2a4c8a,
   0xfffa3942, 0x8771f681, 0x6d9d6122, 0xfde5380c,
   0xa4beea44, 0x4bdecfa9, 0xf6bb4b60, 0xbebfbc70,
   0x289b7ec6, 0xeaa127fa, 0xd4ef3085, 0x04881d05,
   0xd9d4d039, 0xe6db99e5, 0x1fa27cf8, 0xc4ac5665,
   0xf4292244, 0x432aff97, 0xab9423a7, 0xfc93a039,
   0x655b59c3, 0x8f0ccc92, 0xffeff47d, 0x85845dd1,
   0x6fa87e4f, 0xfe2ce6e0, 0xa3014314, 0x4e0811a1,
   0xf7537e82, 0xbd3af235, 0x2ad7d2bb, 0xeb86d391]

def md5S : List Nat :=
  [7,12,17,22,7,12,17,22,7,12,17,22,7,12,17,22,
   5,9,14,20,5,9,14,20,5,9,14,20,5,9,14,20,
   4,11,16,23,4,11,16,23,4,11,16,23,4,11,16,23,
   6,10,15,21,6,10,15,21,6,10,15,21,6,10,15,21]

def md5F (i b c d : Nat) : Nat :=
  if i < 16 then (b &&& c) ||| ((b ^^^ mask32) &&& d)
  else if i < 32 then (d &&& b) ||| ((d ^^^ mask32) &&& c)
  else if i < 48 then b ^^^ c ^^^ d
  else c ^^^ (b ||| (d ^^^ mask32))

def md5G (i : Nat) : Nat :=
  if i < 16 then i
  else if i < 32 then (5 * i + 1) % 16
  else if i < 48 then (3 * i + 5) % 16
  else (7 * i) % 16

def md5Step (M : List Nat) (st : Nat × Nat × Nat × Nat) (i : Nat) :
    Nat × Nat × Nat × Nat :=
  let a := st.1
  let b := st.2.1
  let c := st.2.2.1
  let d := st.2.2.2
  let f := (md5F i b c d + a + md5K.getD i 0 + M.getD (md5G i) 0) % M32
  (d, (b + rotl f (md5S.getD i 0)) % M32, b, c)

/-- Little-endian 32-bit word `j` of a 64-byte chunk. -/
def wordAt (chunk : List Nat) (j : Nat) : Nat :=
  chunk.getD (4 * j) 0 + chunk.getD (4 * j + 1) 0 * 256
    + chunk.getD (4 * j + 2) 0 * 65536 + chunk.getD (4 * j + 3) 0 * 16777216

def md5Chunk (st : Nat × Nat × Nat × Nat) (chunk : List Nat) :
    Nat × Nat × Nat × Nat :=
  let M := (List.range 16).map (wordAt chunk)
  let r := (List.range 64).foldl (md5Step M) st
  ((st.1 + r.1) % M32, (st.2.1 + r.2.1) % M32,
   (st.2.2.1 + r.2.2.1) % M32, (st.2.2.2 + r.2.2.2) % M32)

/-- MD5 padding: 0x80, zeros to 56 mod 64, then the bit length as a
64-bit little-endian quantity. -/
def md5Pad (msg : List Nat) : List Nat :=
  let bitlen := (msg.length * 8) % (2 ^ 64)
  let zeros := (120 - ((msg.length + 1) % 64)) % 64
  msg ++ [128] ++ List.replicate zeros 0
    ++ (List.range 8).map (fun i => (bitlen >>> (8 * i)) % 256)

/-- Split into 64-byte chunks; the fuel, instantiated with the length of the
list, makes the recursion structural (each step consumes at least one byte,
so the fuel never runs out before the list does). -/
def toChunksFuel : Nat → List Nat → List (List Nat)
  | _, [] => []
  | 0, _ => []
  | fuel + 1, l => l.take 64 :: toChunksFuel fuel (l.drop 64)

def toChunks (l : List Nat) : List (List Nat) := toChunksFuel l.length l

def md5Bytes (msg : List Nat) : List Nat :=
  let st := (toChunks (md5Pad msg)).foldl md5Chunk
    (0x67452301, 0xefcdab89, 0x98badcfe, 0x10325476)
  [st.1, st.2.1, st.2.2.1, st.2.2.2].flatMap
    (fun x => [x % 256, (x >>> 8) % 256, (x >>> 16) % 256, (x >>> 24) % 256])

def hexChar (n : Nat) : Char :=
  match n with
  | 0 => '0' | 1 => '1' | 2 => '2' | 3 => '3' | 4 => '4'
  | 5 => '5' | 6 => '6' | 7 => '7' | 8 => '8' | 9 => '9'
  | 10 => 'a' | 11 => 'b' | 12 => 'c' | 13 => 'd' | 14 => 'e'
  | _ => 'f'

def hexDigits : List Char := "0123456789abcdef".data

/-- `hashlib.md5(bytes).hexdigest()`: lowercase hexadecimal MD5 digest. -/
def md5hex (msg : List Nat) : String :=
  String.mk ((md5Bytes msg).flatMap (fun b => [hexChar (b / 16 % 16), hexChar (b % 16)]))

/-! ## Filesystem, logging, and the download pipeline -/

abbrev Bytes := List Nat

/-- The local filesystem: an association of paths to byte contents. -/
structure FS where
  files : List (String × Bytes)
deriving DecidableEq

def FS.read (fs : FS) (p : String) : Option Bytes :=
  (fs.files.find? (fun e => e.1 == p)).map (fun e => e.2)

/-- `os.path.isfile`. -/
def FS.isfile (fs : FS) (p : String) : Bool :=
  (fs.files.find? (fun e => e.1 == p)).isSome

def FS.write (fs : FS) (p : String) (c : Bytes) : FS :=
  if fs.isfile p then ⟨fs.files.map (fun e => if e.1 == p then (p, c) else e)⟩
  else ⟨fs.files ++ [(p, c)]⟩

/-- `os.remove`. -/
def FS.remove (fs : FS) (p : String) : FS :=
  ⟨fs.files.filter (fun e => !(e.1 == p))⟩

inductive LogEntry where
  | info (msg : String)
  | warning (msg : String)
deriving DecidableEq

/-- `check_download_integrity(filepath, md5_value)`: read the file, compute
its MD5 hexdigest, return it when it equals `md5_value`, else return the
`False` sentinel (modelled as `none`); a missing file gives the sentinel
plus a warning.  Result: (return value, log emitted). -/
def check_download_integrity (fs : FS) (filepath md5_value : String) :
    Option String × List LogEntry :=
  match fs.read filepath with
  | some fq_contents =>
    let local_checksum := md5hex fq_contents
    if md5_value ≠ local_checksum then (none, [])
    else (some local_checksum, [])
  | none => (none, [.warning (filepath ++ " not found.")])

/-- Outcome of one `urlretrieve` call: a successful transfer of the given
bytes to the destination, a `urllib.error.URLError` (connection/protocol
failure, possibly after writing a part of the file to the destination), or
any other exception, which the source does not catch. -/
inductive FetchResult where
  | ok (content : Bytes)
  | urlError (written : Option Bytes)
  | raised (e : String)

structure DownloadEffects where
  result : Option String
  fs : FS
  log : List LogEntry
  net : List String
deriving DecidableEq

def skipInfoMsg (ftp_path filepath : String) : String :=
  "Valid file found. Skipping download of file: " ++ "ftp://" ++ ftp_path
    ++ " to " ++ filepath

def invalidWarnMsg (ftp_path filepath : String) : String :=
  "Local file found but invalid checksum." ++ " Downloading again: "
    ++ "ftp://" ++ ftp_path ++ " to " ++ filepath

def ftpWarnMsg (ftp_path filepath : String) : String :=
  "Issue with urlretrieve for " ++ "download of file:" ++ "ftp://" ++ ftp_path
    ++ " to " ++ filepath

/-- The `try: urlretrieve(...) ... except urllib.error.URLError` block of
`retrieve_ftp_file`.  A `URLError` is caught: the code then removes the file
at the *remote path* string if one exists there and returns `False`; any
other exception propagates (`Except.error`). -/
def doDownload (netOracle : String → FetchResult) (fs : FS)
    (ftp_path filepath remote_checksum : String) (log0 : List LogEntry) :
    Except String DownloadEffects :=
  match netOracle ("ftp://" ++ ftp_path) with
  | .ok content =>
    let fs1 := fs.write filepath content
    let r := check_download_integrity fs1 filepath remote_checksum
    .ok ⟨r.1, fs1, log0 ++ r.2, ["ftp://" ++ ftp_path]⟩
  | .urlError written =>
    let fs1 := match written with
      | some c => fs.write filepath c
      | none => fs
    let fs2 := if fs1.isfile ftp_path then fs1.remove ftp_path else fs1
    .ok ⟨none, fs2, log0 ++ [.warning (ftpWarnMsg ftp_path filepath)],
         ["ftp://" ++ ftp_path]⟩
  | .raised e => .error e

/-- `retrieve_ftp_file(ftp_path, filepath, remote_checksum, overwrite)`. -/
def retrieve_ftp_file (netOracle : String → FetchResult) (fs : FS)
    (ftp_path filepath remote_checksum : String) (overwrite : Bool) :
    Except String DownloadEffects :=
  if !overwrite && fs.isfile filepath then
    let r := check_download_integrity fs filepath remote_checksum
    match r.1 with
    | some checksum =>
      .ok ⟨some checksum, fs, r.2 ++ [.info (skipInfoMsg ftp_path filepath)], []⟩
    | none =>
      doDownload netOracle fs ftp_path filepath remote_checksum
        (r.2 ++ [.warning (invalidWarnMsg ftp_path filepath)])
  else doDownload netOracle fs ftp_path filepath remote_checksum []

/-! ## parse_document -/

structure HttpResponse where
  status_code : Nat
  text : String
deriving DecidableEq

structure PdfPage where
  extractText : String
deriving DecidableEq

/-- Python attribute lookup on a PyPDF2 page object: only `extractText`
exists; any other attribute name raises `AttributeError`. -/
def pageMethod (p : PdfPage) (name : String) : Except String String :=
  if name = "extractText" then .ok p.extractText
  else .error ("AttributeError: " ++ name)

/-- The `for i in range(document.numPages): full_text += ...` loop, calling
the named page attribute; the first failing call raises. -/
def extractAll (pages : List PdfPage) (name : String) : Except String String :=
  pages.foldlM (fun acc p => (pageMethod p name).map (fun t => acc ++ t)) ""

/-- External world of `parse_document`: `requests.get`, `urlretrieve` (URL to
temporary file name), PyPDF2 documents by path, and local text files. -/
structure DocEnv where
  http : String → HttpResponse
  urlretrieve : String → String
  pdfPages : String → List PdfPage
  textFile : String → Option String

/-- Separators of `re.split(r"\; |\, |\. | |\n|\t", ...)` (PDF text). -/
def pdfSeps : List (List Char) :=
  [[';', ' '], [',', ' '], ['.', ' '], [' '], ['\n'], ['\t']]

/-- Separators of the finer non-PDF split pattern: semicolon, comma, period,
space, newline, tab, angle brackets, slash, double quote, single quote. -/
def textSeps : List (List Char) :=
  [[';'], [','], ['.'], [' '], ['\n'], ['\t'], ['<'], ['>'], ['/'],
   [Char.ofNat 34], [Char.ofNat 39]]

/-- Length of the first separator matching at the current position,
alternatives tried in pattern order. -/
def matchSep (seps : List (List Char)) (s : List Char) : Option Nat :=
  seps.findSome? (fun sep => if isPrefixL sep s then some sep.length else none)

/-- One splitting step per unit of fuel; each step consumes at least one
character, so with the length of the input as fuel the zero-fuel case is
never reached and the recursion is structural. -/
def splitAux (seps : List (List Char)) (cur : List Char) : Nat → List Char → List String
  | _, [] => [String.mk cur.reverse]
  | 0, _ => [String.mk cur.reverse]
  | fuel + 1, c :: rest =>
    match matchSep seps (c :: rest) with
    | some n => String.mk cur.reverse :: splitAux seps [] fuel (rest.drop (n - 1))
    | none => splitAux seps (c :: cur) fuel rest

/-- `re.split` on a fixed alternation of literal separators, keeping empty
fields, as Python does. -/
def pySplit (seps : List (List Char)) (s : String) : List String :=
  splitAux seps [] s.data.length s.data

/-- The DOI branch of `parse_document`: the source compares the slice
`filepath[0:3]` with the four-character literal `"10.1"`. -/
def doiRewrite (filepath : String) : String :=
  if String.mk (filepath.data.take 3) = "10.1" then "https://doi.org/" ++ filepath
  else filepath

/-- Python `filepath[-3:]`. -/
def lastThree (filepath : String) : String :=
  String.mk (filepath.data.drop (filepath.data.length - 3))

/-- `parse_document(filepath)`.  `Except.error` models an uncaught Python
exception (missing local file, unknown page attribute). -/
def parse_document (env : DocEnv) (filepath0 : String) : Except String (List String) :=
  let filepath := doiRewrite filepath0
  if String.mk (filepath.data.take 3) = "htt" then
    let request := env.http filepath
    if request.status_code = 200 then
      if lastThree filepath = "pdf" then
        let file_name := env.urlretrieve filepath
        match extractAll (env.pdfPages file_name) "extractText" with
        | .ok full_text => .ok (pySplit pdfSeps full_text)
        | .error e => .error e
      else .ok (pySplit textSeps request.text)
    else .ok []
  else
    if lastThree filepath = "pdf" then
      match extractAll (env.pdfPages filepath) "extractTexit" with
      | .ok full_text => .ok (pySplit pdfSeps full_text)
      | .error e => .error e
    else
      match env.textFile filepath with
      | some full_text => .ok (pySplit textSeps full_text)
      | none => .error ("IOError: " ++ filepath)

/-! ## scrape_ebi_ids -/

/-- Effects of a scan: accepted ids, warnings, and HTTP GETs issued. -/
structure ScanEff where
  found : List String
  warnings : List String
  requests : List String
deriving DecidableEq

def ScanEff.app (a b : ScanEff) : ScanEff :=
  ⟨a.found ++ b.found, a.warnings ++ b.warnings, a.requests ++ b.requests⟩

/-- Python-dict insertion on an insertion-ordered association list:
an existing key is updated in place, a new key is appended. -/
def dictInsert (d : List (String × String)) (k v : String) :
    List (String × String) :=
  if d.any (fun e => e.1 == k) then
    d.map (fun e => if e.1 == k then (k, v) else e)
  else d ++ [(k, v)]

/-- `{stem: t for stem in proj_id_stems for t in tokens if stem in t}`. -/
def potentialDict (tokens proj_id_stems : List String) :
    List (String × String) :=
  proj_id_stems.foldl
    (fun d stem =>
      tokens.foldl
        (fun d t => if containsSub stem.data t.data then dictInsert d stem t else d)
        d)
    []

def lookupD (d : List (String × String)) (k : String) : Option String :=
  (d.find? (fun e => e.1 == k)).map (fun e => e.2)

def ebiUrl (test_study : String) : String :=
  "https://www.ebi.ac.uk/ena/browser/view/" ++ test_study ++ "&display=xml"

def ebiWarnMsg (test_study url : String) : String :=
  "Found stem: " ++ test_study ++ " in " ++ test_study
    ++ " but EBI project URL " ++ url ++ " does not exist."

/-- Python `s.strip(c)`: remove every leading and trailing occurrence. -/
def stripChar (c : Char) (s : List Char) : List Char :=
  ((s.dropWhile (fun x => x == c)).reverse.dropWhile (fun x => x == c)).reverse

/-- Python `s.strip()` (whitespace). -/
def stripWs (s : List Char) : List Char :=
  ((s.dropWhile Char.isWhitespace).reverse.dropWhile Char.isWhitespace).reverse

/-- `test_study.strip().strip(",").strip(".").strip("-")`. -/
def stripStudy (s : String) : String :=
  String.mk (stripChar '-' (stripChar '.' (stripChar ',' (stripWs s.data))))

/-- Continuation of the inner loop body of `scrape_ebi_ids` on the result of
`t.find(stem)` (`none` standing for -1). -/
def processStemGo (ebiStatus : String → Nat) (t stem : String) : Option Nat → ScanEff
  | none => ⟨[], [], []⟩
  | some start =>
    if t.data.length ≥ start + stem.data.length + 1 then
      let next_char := t.data.getD (start + stem.data.length) ' '
      if next_char.isDigit then
        let test_study := String.mk (t.data.drop start)
        let url := ebiUrl test_study
        if ebiStatus url = 200 ∧ 6 ≤ test_study.data.length then
          ⟨[stripStudy test_study], [], [url]⟩
        else ⟨[], [ebiWarnMsg test_study url], [url]⟩
      else ⟨[], [], []⟩
    else ⟨[], [], []⟩

/-- The body of the inner `for stem in proj_id_stems` loop of
`scrape_ebi_ids`, for one surviving token `t` and one `stem`.  Python
`str.isnumeric` is modelled as the ASCII digit test, faithful on the
accession alphabets in play. -/
def processStem (ebiStatus : String → Nat) (t stem : String) : ScanEff :=
  processStemGo ebiStatus t stem (strFindAux stem.data t.data)

/-- `scrape_ebi_ids(tokens, proj_id_stems)` with the EBI existence endpoint
as a status-code oracle. -/
def scrape_ebi_ids (ebiStatus : String → Nat) (tokens proj_id_stems : List String) :
    ScanEff :=
  let potential_tokens := (potentialDict tokens proj_id_stems).map (fun e => e.2)
  potential_tokens.foldl
    (fun acc t =>
      proj_id_stems.foldl (fun acc stem => acc.app (processStem ebiStatus t stem)) acc)
    ⟨[], [], []⟩

/-- `i` is the position of the first occurrence of `stem` in `t`. -/
def firstOcc (stem t : List Char) (i : Nat) : Prop :=
  isPrefixL stem (t.drop i) = true ∧ ∀ j, j < i → isPrefixL stem (t.drop j) = false

/-- A web environment whose every HTTP GET fails with 404. -/
def env404 : DocEnv := ⟨fun _ => ⟨404, ""⟩, fun u => u, fun _ => [], fun _ => none⟩

/-- A web environment in which the DOI resolver serves a document, while no
local file exists. -/
def envDoi : DocEnv :=
  ⟨fun _ => ⟨200, "PRJEB1 in study"⟩, fun u => u, fun _ => [], fun _ => none⟩

/-- A web environment serving one fixed one-page PDF, remotely and at every
local path. -/
def envPdf : DocEnv :=
  ⟨fun _ => ⟨200, ""⟩, fun _ => "tmpfile", fun _ => [⟨"PRJEB1 ok"⟩], fun _ => none⟩

deriving instance DecidableEq for Except

/-! ## Helper lemmas -/

theorem hexChar_mem_hexDigits (n : Nat) : hexChar n ∈ hexDigits := by
  unfold hexChar
  split <;> decide

theorem md5Bytes_length (msg : Bytes) : (md5Bytes msg).length = 16 := by
  unfold md5Bytes
  simp

theorem md5hex_hex (msg : Bytes) :
    (md5hex msg).data.length = 32 ∧ ∀ c ∈ (md5hex msg).data, c ∈ hexDigits := by
  have hdata : (md5hex msg).data
      = (md5Bytes msg).flatMap (fun b => [hexChar (b / 16 % 16), hexChar (b % 16)]) := rfl
  constructor
  · rw [hdata, List.length_flatMap]
    have h2 : List.map (List.length ∘ fun b => [hexChar (b / 16 % 16), hexChar (b % 16)])
        (md5Bytes msg) = List.map (fun _ => 2) (md5Bytes msg) :=
      List.map_congr_left (fun b _ => rfl)
    rw [h2]
    have h3 : ∀ l : List Nat, (List.map (fun _ => (2 : Nat)) l).sum = 2 * l.length := by
      intro l
      induction l with
      | nil => rfl
      | cons x xs ih => simp only [List.map_cons, List.sum_cons, ih, List.length_cons]; omega
    rw [h3, md5Bytes_length]
  · intro c hc
    have hc2 : c ∈ (md5Bytes msg).flatMap
        (fun b => [hexChar (b / 16 % 16), hexChar (b % 16)]) := hc
    rw [List.mem_flatMap] at hc2
    obtain ⟨b, _, hb⟩ := hc2
    simp only [List.mem_cons, List.not_mem_nil, or_false] at hb
    rcases hb with h | h <;> (subst h; exact hexChar_mem_hexDigits _)

theorem FS.read_isfile {fs : FS} {p : String} {c : Bytes}
    (h : fs.read p = some c) : fs.isfile p = true := by
  unfold FS.read at h
  unfold FS.isfile
  cases hf : fs.files.find? (fun e => e.1 == p) with
  | none => rw [hf] at h; simp at h
  | some e => simp

theorem doiRewrite_eq_self (s : String) : doiRewrite s = s := by
  unfold doiRewrite
  split
  case isTrue h =>
    exfalso
    have hd := congrArg String.data h
    have hlen := congrArg List.length hd
    have h4 : ("10.1" : String).data.length = 4 := by decide
    simp only [String] at hd
    have ht : (String.mk (s.data.take 3)).data = s.data.take 3 := rfl
    rw [ht] at hlen
    rw [h4, List.length_take] at hlen
    omega
  case isFalse h => rfl

theorem strFindAux_some_firstOcc (stem : List Char) :
    ∀ (t : List Char) (i : Nat), strFindAux stem t = some i → firstOcc stem t i := by
  intro t
  induction t with
  | nil =>
    intro i h
    simp only [strFindAux] at h
    split at h
    case isTrue hp =>
      injection h with h0
      subst h0
      exact ⟨hp, fun j hj => absurd hj (by omega)⟩
    case isFalse hp => cases h
  | cons c rest ih =>
    intro i h
    simp only [strFindAux] at h
    split at h
    case isTrue hp =>
      injection h with h0
      subst h0
      exact ⟨hp, fun j hj => absurd hj (by omega)⟩
    case isFalse hp =>
      cases hr : strFindAux stem rest with
      | none => rw [hr] at h; cases h
      | some i2 =>
        rw [hr] at h
        have h' : some (i2 + 1) = some i := h
        injection h' with h0
        subst h0
        obtain ⟨h1, h2⟩ := ih i2 hr
        refine ⟨by rw [List.drop_succ_cons]; exact h1, ?_⟩
        intro j hj
        cases j with
        | zero =>
          simp only [List.drop_zero]
          exact Bool.not_eq_true _ ▸ eq_false_of_ne_true hp
        | succ j2 =>
          rw [List.drop_succ_cons]
          exact h2 j2 (by omega)

theorem firstOcc_strFindAux (stem : List Char) :
    ∀ (t : List Char) (i : Nat), firstOcc stem t i → strFindAux stem t = some i := by
  intro t
  induction t with
  | nil =>
    rintro i ⟨h1, h2⟩
    have hi : i = 0 := by
      by_contra hne
      have h0 := h2 0 (by omega)
      rw [List.drop_nil] at h0
      rw [List.drop_nil] at h1
      rw [h1] at h0
      cases h0
    subst hi
    simp only [strFindAux]
    rw [if_pos (by rw [List.drop_nil] at h1; exact h1)]
  | cons c rest ih =>
    rintro i ⟨h1, h2⟩
    simp only [strFindAux]
    by_cases hp : isPrefixL stem (c :: rest) = true
    · have hi : i = 0 := by
        by_contra hne
        have h0 := h2 0 (by omega)
        rw [List.drop_zero] at h0
        rw [h0] at hp
        cases hp
      subst hi
      rw [if_pos hp]
    · rw [if_neg hp]
      cases i with
      | zero =>
        rw [List.drop_zero] at h1
        exact absurd h1 hp
      | succ i2 =>
        have hro : firstOcc stem rest i2 := by
          constructor
          · rw [List.drop_succ_cons] at h1; exact h1
          · intro j hj
            have hh := h2 (j + 1) (by omega)
            rw [List.drop_succ_cons] at hh
            exact hh
        rw [ih i2 hro]
        rfl

theorem strFindAux_none (stem : List Char) :
    ∀ (t : List Char), strFindAux stem t = none →
      ∀ i, isPrefixL stem (t.drop i) = false := by
  intro t
  induction t with
  | nil =>
    intro h i
    simp only [strFindAux] at h
    split at h
    case isTrue hp => cases h
    case isFalse hp =>
      rw [List.drop_nil]
      exact eq_false_of_ne_true hp
  | cons c rest ih =>
    intro h i
    simp only [strFindAux] at h
    split at h
    case isTrue hp => cases h
    case isFalse hp =>
      cases hr : strFindAux stem rest with
      | some i2 => rw [hr] at h; cases h
      | none =>
        cases i with
        | zero =>
          rw [List.drop_zero]
          exact eq_false_of_ne_true hp
        | succ i2 =>
          rw [List.drop_succ_cons]
          exact ih hr i2

theorem find?P_cons_pos {α : Type} (p : α → Bool) (a : α) (l : List α)
    (h : p a = true) : List.find? p (a :: l) = some a :=
  List.find?_cons_of_pos l h

theorem find?P_cons_neg {α : Type} (p : α → Bool) (a : α) (l : List α)
    (h : p a = false) : List.find? p (a :: l) = List.find? p l :=
  List.find?_cons_of_neg l (by simp [h])

theorem lookupD_update (d : List (String × String)) (k v : String)
    (hany : d.any (fun e => e.1 == k) = true) :
    lookupD (d.map (fun e => if e.1 == k then (k, v) else e)) k = some v := by
  induction d with
  | nil => exact (Bool.false_ne_true hany).elim
  | cons e rest ih =>
    simp only [List.any_cons, Bool.or_eq_true] at hany
    simp only [List.map_cons]
    by_cases he : (e.1 == k) = true
    · rw [if_pos he]
      unfold lookupD
      rw [find?P_cons_pos (fun e => e.1 == k) (k, v) _ (by simp)]
      rfl
    · rw [if_neg he]
      unfold lookupD
      rw [find?P_cons_neg (fun e => e.1 == k) e _ (eq_false_of_ne_true he)]
      exact ih (hany.resolve_left he)

theorem lookupD_append_new (d : List (String × String)) (k v : String)
    (hany : d.any (fun e => e.1 == k) = false) :
    lookupD (d ++ [(k, v)]) k = some v := by
  unfold lookupD
  rw [List.find?_append]
  have hnone : d.find? (fun e => e.1 == k) = none := by
    rw [List.find?_eq_none]
    rw [List.any_eq_false] at hany
    exact hany
  rw [hnone]
  rw [find?P_cons_pos (fun e => e.1 == k) (k, v) _ (by simp)]
  rfl

theorem lookupD_dictInsert_self (d : List (String × String)) (k v : String) :
    lookupD (dictInsert d k v) k = some v := by
  unfold dictInsert
  split
  case isTrue hany => exact lookupD_update d k v hany
  case isFalse hany => exact lookupD_append_new d k v (eq_false_of_ne_true hany)

theorem lookupD_update_other (d : List (String × String)) (k v k2 : String)
    (hne : k2 ≠ k) :
    lookupD (d.map (fun e => if e.1 == k then (k, v) else e)) k2 = lookupD d k2 := by
  induction d with
  | nil => rfl
  | cons e rest ih =>
    simp only [List.map_cons]
    by_cases he : (e.1 == k) = true
    · rw [if_pos he]
      have he1 : e.1 = k := by simpa using he
      have hk2 : ((k, v).1 == k2) = false := by
        simp only [beq_eq_false_iff_ne, ne_eq]
        exact fun h => hne h.symm
      have he2 : (e.1 == k2) = false := by
        rw [he1]
        simpa using fun h => hne h.symm
      unfold lookupD
      rw [find?P_cons_neg (fun e => e.1 == k2) (k, v) _ hk2,
          find?P_cons_neg (fun e => e.1 == k2) e _ he2]
      exact ih
    · rw [if_neg he]
      unfold lookupD
      by_cases he2 : (e.1 == k2) = true
      · rw [find?P_cons_pos (fun e => e.1 == k2) e _ he2,
            find?P_cons_pos (fun e => e.1 == k2) e _ he2]
      · rw [find?P_cons_neg (fun e => e.1 == k2) e _ (eq_false_of_ne_true he2),
            find?P_cons_neg (fun e => e.1 == k2) e _ (eq_false_of_ne_true he2)]
        exact ih

theorem lookupD_dictInsert_other (d : List (String × String)) (k v k2 : String)
    (hne : k2 ≠ k) :
    lookupD (dictInsert d k v) k2 = lookupD d k2 := by
  unfold dictInsert
  split
  case isTrue hany => exact lookupD_update_other d k v k2 hne
  case isFalse hany =>
    unfold lookupD
    rw [List.find?_append]
    have hlast : List.find? (fun e => e.1 == k2) [(k, v)] = none := by
      rw [List.find?_eq_none]
      intro x hx
      simp only [List.mem_singleton] at hx
      subst hx
      simpa using fun h => hne h.symm
    rw [hlast, Option.or_none]

theorem keys_update (d : List (String × String)) (k v : String) :
    (d.map (fun e => if e.1 == k then (k, v) else e)).map (fun e => e.1)
      = d.map (fun e => e.1) := by
  induction d with
  | nil => rfl
  | cons e rest ih =>
    simp only [List.map_cons]
    by_cases he : (e.1 == k) = true
    · have h1 : e.1 = k := by simpa using he
      rw [if_pos he, ih]
      rw [h1]
    · rw [if_neg he, ih]

theorem keys_dictInsert_nodup (d : List (String × String)) (k v : String)
    (h : (d.map (fun e => e.1)).Nodup) :
    ((dictInsert d k v).map (fun e => e.1)).Nodup := by
  by_cases hany : (d.any (fun e => e.1 == k)) = true
  · unfold dictInsert
    rw [if_pos hany, keys_update]
    exact h
  · unfold dictInsert
    rw [if_neg hany, List.map_append, List.nodup_append]
    refine ⟨h, List.nodup_singleton k, ?_⟩
    intro a ha hb
    simp only [List.map_cons, List.map_nil, List.mem_singleton] at hb
    have hany2 : d.any (fun e => e.1 == k) = false := eq_false_of_ne_true hany
    rw [List.any_eq_false] at hany2
    rw [List.mem_map] at ha
    obtain ⟨e, he, hek⟩ := ha
    exact hany2 e he (by simp [hek, hb])

theorem foldl_preserve {α β : Type} (f : α → β → α) (P : α → Prop)
    (hstep : ∀ a b, P a → P (f a b)) :
    ∀ (l : List β) (a : α), P a → P (l.foldl f a) := by
  intro l
  induction l with
  | nil => intro a h; exact h
  | cons x xs ih => intro a h; exact ih _ (hstep a x h)

theorem inner_fold_self (stem : String) (tokens : List String) :
    ∀ d, lookupD (tokens.foldl
        (fun d t => if containsSub stem.data t.data then dictInsert d stem t else d) d) stem
      = (tokens.reverse.find? (fun t => containsSub stem.data t.data)).or (lookupD d stem) := by
  induction tokens with
  | nil => intro d; simp
  | cons t ts ih =>
    intro d
    simp only [List.foldl_cons, List.reverse_cons]
    rw [ih, List.find?_append]
    cases hf : ts.reverse.find? (fun t => containsSub stem.data t.data) with
    | some v => rfl
    | none =>
      show lookupD (if containsSub stem.data t.data then dictInsert d stem t else d) stem
        = (List.find? (fun t => containsSub stem.data t.data) [t]).or (lookupD d stem)
      by_cases hc : containsSub stem.data t.data = true
      · rw [if_pos hc, lookupD_dictInsert_self,
            find?P_cons_pos (fun t => containsSub stem.data t.data) t _ hc]
        rfl
      · rw [if_neg hc,
            find?P_cons_neg (fun t => containsSub stem.data t.data) t _
              (eq_false_of_ne_true hc)]
        rfl

theorem inner_fold_other (stem s2 : String) (hne : s2 ≠ stem) (tokens : List String) :
    ∀ d, lookupD (tokens.foldl
        (fun d t => if containsSub stem.data t.data then dictInsert d stem t else d) d) s2
      = lookupD d s2 := by
  induction tokens with
  | nil => intro d; rfl
  | cons t ts ih =>
    intro d
    simp only [List.foldl_cons]
    rw [ih]
    by_cases hc : containsSub stem.data t.data = true
    · rw [if_pos hc, lookupD_dictInsert_other d stem t s2 hne]
    · rw [if_neg hc]

theorem outer_fold_lookup (tokens : List String) (stems : List String) (stem : String) :
    ∀ d, lookupD (stems.foldl
        (fun d st => tokens.foldl
          (fun d t => if containsSub st.data t.data then dictInsert d st t else d) d) d) stem
      = if stem ∈ stems
        then (tokens.reverse.find? (fun t => containsSub stem.data t.data)).or (lookupD d stem)
        else lookupD d stem := by
  induction stems with
  | nil => intro d; simp
  | cons s rest ih =>
    intro d
    simp only [List.foldl_cons]
    rw [ih]
    by_cases hs : s = stem
    · subst hs
      rw [inner_fold_self]
      rw [if_pos (List.mem_cons_self s rest)]
      by_cases hr : s ∈ rest
      · rw [if_pos hr]
        cases hf : tokens.reverse.find? (fun t => containsSub s.data t.data) <;> rfl
      · rw [if_neg hr]
    · rw [inner_fold_other s stem (fun h => hs h.symm)]
      have hmem : (stem ∈ s :: rest) ↔ (stem ∈ rest) := by
        rw [List.mem_cons]
        exact or_iff_right (fun h => hs h.symm)
      by_cases hr : stem ∈ rest
      · rw [if_pos hr, if_pos (hmem.mpr hr)]
      · rw [if_neg hr, if_neg (fun h => hr (hmem.mp h))]

theorem foldl_app_found {α : Type} (g : α → ScanEff) :
    ∀ (l : List α) (acc : ScanEff),
      (l.foldl (fun a x => a.app (g x)) acc).found
        = acc.found ++ l.flatMap (fun x => (g x).found) := by
  intro l
  induction l with
  | nil => intro acc; simp
  | cons x xs ih =>
    intro acc
    rw [List.foldl_cons, ih, List.flatMap_cons]
    simp [ScanEff.app, List.append_assoc]

theorem foldl_nested_found (ebiStatus : String → Nat) (stems : List String) :
    ∀ (pot : List String) (acc : ScanEff),
      (pot.foldl (fun acc t => stems.foldl
          (fun a s => a.app (processStem ebiStatus t s)) acc) acc).found
        = acc.found ++ pot.flatMap
            (fun t => stems.flatMap (fun s => (processStem ebiStatus t s).found)) := by
  intro pot
  induction pot with
  | nil => intro acc; simp
  | cons t ts ih =>
    intro acc
    rw [List.foldl_cons, ih, foldl_app_found (fun s => processStem ebiStatus t s) stems acc,
        List.flatMap_cons, List.append_assoc]

theorem scrape_found_eq (ebiStatus : String → Nat) (tokens stems : List String) :
    (scrape_ebi_ids ebiStatus tokens stems).found
      = ((potentialDict tokens stems).map (fun e => e.2)).flatMap
          (fun t => stems.flatMap (fun s => (processStem ebiStatus t s).found)) := by
  unfold scrape_ebi_ids
  rw [foldl_nested_found]
  rfl

theorem count_map_two (l : List (String × String)) (p q : String × String)
    (hp : p ∈ l) (hq : q ∈ l) (hne : p ≠ q) (h2 : p.2 = q.2) :
    2 ≤ (l.map (fun e => e.2)).count p.2 := by
  induction l with
  | nil => cases hp
  | cons x xs ih =>
    rw [List.map_cons, List.count_cons]
    rcases List.mem_cons.mp hp with hpx | hpxs
    · subst hpx
      have hqxs : q ∈ xs := by
        rcases List.mem_cons.mp hq with h | h
        · exact absurd h.symm hne
        · exact h
      have hmem : p.2 ∈ xs.map (fun e => e.2) := by
        rw [h2]
        exact List.mem_map_of_mem _ hqxs
      have hc1 : 0 < (xs.map (fun e => e.2)).count p.2 :=
        List.count_pos_iff.mpr hmem
      rw [if_pos (beq_self_eq_true _)]
      omega
    · rcases List.mem_cons.mp hq with hqx | hqxs
      · subst hqx
        have hmem : p.2 ∈ xs.map (fun e => e.2) := List.mem_map_of_mem _ hpxs
        have hc1 : 0 < (xs.map (fun e => e.2)).count p.2 :=
          List.count_pos_iff.mpr hmem
        rw [if_pos (by simpa using h2.symm)]
        omega
      · have hge := ih hpxs hqxs
        by_cases hx : (x.2 == p.2) = true
        · rw [if_pos hx]; omega
        · rw [if_neg hx]; omega

theorem count_flatMap_mul (l : List String) (f : String → List String) (t a : String) :
    l.count t * (f t).count a ≤ (l.flatMap f).count a := by
  induction l with
  | nil => simp
  | cons x xs ih =>
    rw [List.flatMap_cons, List.count_append, List.count_cons]
    by_cases hx : (x == t) = true
    · have hxt : x = t := by simpa using hx
      subst hxt
      rw [if_pos hx, Nat.add_mul, Nat.one_mul]
      omega
    · rw [if_neg hx]
      simp only [Nat.add_zero]
      omega

/-! ## Claim theorems: the download pipeline -/

/-- C1: with `overwrite=false`, an existing destination whose MD5 digest
equals the expected checksum makes `retrieve_ftp_file` return that checksum
at once, with no network operation, an unchanged filesystem, and only the
skip log line; a repeated call in that state, under any network oracle,
returns the identical outcome, so the skip path is idempotent and never
touches the network. -/
theorem retrieve_skip_idempotent (netOracle netOracle2 : String → FetchResult)
    (fs : FS) (ftp_path filepath remote_checksum : String) (contents : Bytes)
    (hread : fs.read filepath = some contents)
    (hsum : md5hex contents = remote_checksum) :
    retrieve_ftp_file netOracle fs ftp_path filepath remote_checksum false
      = .ok ⟨some remote_checksum, fs,
             [.info (skipInfoMsg ftp_path filepath)], []⟩ ∧
    retrieve_ftp_file netOracle2 fs ftp_path filepath remote_checksum false
      = retrieve_ftp_file netOracle fs ftp_path filepath remote_checksum false := by
  have hch : check_download_integrity fs filepath remote_checksum
      = (some remote_checksum, []) := by
    unfold check_download_integrity
    rw [hread]
    simp [hsum]
  have hisf := FS.read_isfile hread
  have h1 : retrieve_ftp_file netOracle fs ftp_path filepath remote_checksum false
      = .ok ⟨some remote_checksum, fs,
             [.info (skipInfoMsg ftp_path filepath)], []⟩ := by
    unfold retrieve_ftp_file
    simp [hisf, hch]
  have h2 : retrieve_ftp_file netOracle2 fs ftp_path filepath remote_checksum false
      = .ok ⟨some remote_checksum, fs,
             [.info (skipInfoMsg ftp_path filepath)], []⟩ := by
    unfold retrieve_ftp_file
    simp [hisf, hch]
  exact ⟨h1, h2.trans h1.symm⟩

theorem c1_witness :
    FS.read ⟨[("local.fastq", [])]⟩ "local.fastq" = some [] ∧
    md5hex [] = "d41d8cd98f00b204e9800998ecf8427e" ∧
    retrieve_ftp_file (fun _ => .raised "boom") ⟨[("local.fastq", [])]⟩
        "srv/f" "local.fastq" "d41d8cd98f00b204e9800998ecf8427e" false
      = .ok ⟨some "d41d8cd98f00b204e9800998ecf8427e", ⟨[("local.fastq", [])]⟩,
             [.info (skipInfoMsg "srv/f" "local.fastq")], []⟩ :=
  ⟨by decide, by decide,
   (retrieve_skip_idempotent (fun _ => .raised "boom") (fun _ => .raised "boom")
      ⟨[("local.fastq", [])]⟩ "srv/f" "local.fastq"
      "d41d8cd98f00b204e9800998ecf8427e" [] (by decide) (by decide)).1⟩

/-- C2: when the transfer raises a `URLError`, `retrieve_ftp_file` catches
it (`Except.ok`, no propagation), returns the `False` sentinel, removes the
file at the remote-path string if one exists there, and logs a warning whose
text contains the ftp URL and the destination. -/
theorem retrieve_transport_sentinel (netOracle : String → FetchResult) (fs : FS)
    (ftp_path filepath remote_checksum : String) (overwrite : Bool)
    (written : Option Bytes)
    (hnet : netOracle ("ftp://" ++ ftp_path) = .urlError written)
    (hns : (!overwrite && fs.isfile filepath) = false ∨
           (check_download_integrity fs filepath remote_checksum).1 = none) :
    (∃ log0 : List LogEntry,
      retrieve_ftp_file netOracle fs ftp_path filepath remote_checksum overwrite
        = .ok ⟨none,
               (let fs1 := match written with
                  | some c => fs.write filepath c
                  | none => fs
                if fs1.isfile ftp_path then fs1.remove ftp_path else fs1),
               log0 ++ [.warning (ftpWarnMsg ftp_path filepath)],
               ["ftp://" ++ ftp_path]⟩) ∧
    (∃ l r, (ftpWarnMsg ftp_path filepath).data
        = l ++ ("ftp://" ++ ftp_path).data ++ r) ∧
    (∃ l r, (ftpWarnMsg ftp_path filepath).data = l ++ filepath.data ++ r) := by
  have hdl : ∀ log0, doDownload netOracle fs ftp_path filepath remote_checksum log0
      = .ok ⟨none,
             (let fs1 := match written with
                | some c => fs.write filepath c
                | none => fs
              if fs1.isfile ftp_path then fs1.remove ftp_path else fs1),
             log0 ++ [.warning (ftpWarnMsg ftp_path filepath)],
             ["ftp://" ++ ftp_path]⟩ := by
    intro log0
    unfold doDownload
    rw [hnet]
  refine ⟨?_, ?_, ?_⟩
  · unfold retrieve_ftp_file
    by_cases hc : (!overwrite && fs.isfile filepath) = true
    · rcases hns with hns | hns
      · rw [hc] at hns; cases hns
      · rw [if_pos hc]
        refine ⟨(check_download_integrity fs filepath remote_checksum).2
          ++ [.warning (invalidWarnMsg ftp_path filepath)], ?_⟩
        simp only [hns]
        exact hdl _
    · rw [if_neg hc]
      exact ⟨[], hdl []⟩
  · exact ⟨("Issue with urlretrieve for " ++ "download of file:").data,
      (" to " ++ filepath).data,
      by simp [ftpWarnMsg, String.data_append, List.append_assoc]⟩
  · exact ⟨("Issue with urlretrieve for " ++ "download of file:" ++ "ftp://"
        ++ ftp_path ++ " to ").data, [],
      by simp [ftpWarnMsg, String.data_append, List.append_assoc]⟩

theorem c2_witness :
    ((fun _ : String => FetchResult.urlError (some [1, 2])) ("ftp://" ++ "srv/f")
       = .urlError (some [1, 2])) ∧
    ((!true && FS.isfile ⟨[]⟩ "dst") = false) ∧
    ((∃ log0 : List LogEntry,
      retrieve_ftp_file (fun _ => .urlError (some [1, 2])) ⟨[]⟩ "srv/f" "dst" "c" true
        = .ok ⟨none,
               (let fs1 := match some [1, 2] with
                  | some c => FS.write ⟨[]⟩ "dst" c
                  | none => (⟨[]⟩ : FS)
                if fs1.isfile "srv/f" then fs1.remove "srv/f" else fs1),
               log0 ++ [.warning (ftpWarnMsg "srv/f" "dst")],
               ["ftp://" ++ "srv/f"]⟩) ∧
     (∃ l r, (ftpWarnMsg "srv/f" "dst").data = l ++ ("ftp://" ++ "srv/f").data ++ r) ∧
     (∃ l r, (ftpWarnMsg "srv/f" "dst").data = l ++ ("dst" : String).data ++ r)) :=
  ⟨rfl, by decide,
   retrieve_transport_sentinel (fun _ => .urlError (some [1, 2])) ⟨[]⟩
     "srv/f" "dst" "c" true (some [1, 2]) rfl (Or.inl (by decide))⟩

/-- C3: `check_download_integrity` returns the lowercase hexadecimal MD5
digest of the full file contents exactly when it equals the expected
value, the `False` sentinel (never the computed digest) on a mismatch, and
for a missing file the sentinel together with a warning, raising nothing. -/
theorem check_download_integrity_correct (fs : FS) (filepath md5_value : String) :
    (∀ contents, fs.read filepath = some contents →
      ((md5_value = md5hex contents →
        check_download_integrity fs filepath md5_value = (some (md5hex contents), [])) ∧
       (md5_value ≠ md5hex contents →
        check_download_integrity fs filepath md5_value = (none, [])))) ∧
    (fs.read filepath = none →
      check_download_integrity fs filepath md5_value
        = (none, [LogEntry.warning (filepath ++ " not found.")])) ∧
    (∀ contents : Bytes, (md5hex contents).data.length = 32 ∧
      ∀ c ∈ (md5hex contents).data, c ∈ hexDigits) := by
  refine ⟨fun contents h => ?_, fun h => ?_, fun contents => md5hex_hex contents⟩
  · unfold check_download_integrity
    rw [h]
    constructor
    · intro he
      simp [he]
    · intro he
      simp [he]
  · unfold check_download_integrity
    rw [h]

theorem c3_witness :
    FS.read ⟨[("f.fastq", [97, 98, 99])]⟩ "f.fastq" = some [97, 98, 99] ∧
    "900150983cd24fb0d6963f7d28e17f72" = md5hex [97, 98, 99] ∧
    check_download_integrity ⟨[("f.fastq", [97, 98, 99])]⟩ "f.fastq"
        "900150983cd24fb0d6963f7d28e17f72" = (some (md5hex [97, 98, 99]), []) :=
  ⟨by decide, by decide,
   ((check_download_integrity_correct ⟨[("f.fastq", [97, 98, 99])]⟩ "f.fastq"
       "900150983cd24fb0d6963f7d28e17f72").1 [97, 98, 99] (by decide)).1 (by decide)⟩

/-! ## Claim theorems: parse_document -/

/-- C4: the claim says a reference beginning with the DOI prefix pattern is
rewritten to `https://doi.org/<doi>` and fetched remotely.  The code
compares the three-character slice `filepath[0:3]` with the four-character
literal `"10.1"`, which is never true: no reference is ever rewritten, and a
DOI reference falls through to the local-file branch — here raising IOError
even though the DOI resolver would have served the document. -/
theorem doi_rewrite_dead :
    (∀ s : String, doiRewrite s = s) ∧
    parse_document envDoi "10.1234/abc" = .error ("IOError: " ++ "10.1234/abc") :=
  ⟨doiRewrite_eq_self, by decide⟩

/-- C8: a remote reference whose GET returns a status other than 200 yields
an empty token list, with no error raised. -/
theorem parse_document_non200 (env : DocEnv) (filepath : String)
    (hhtt : String.mk (filepath.data.take 3) = "htt")
    (hstatus : (env.http filepath).status_code ≠ 200) :
    parse_document env filepath = .ok [] := by
  unfold parse_document
  rw [doiRewrite_eq_self]
  simp [hhtt, hstatus]

theorem c8_witness :
    String.mk (("http://a.org/x").data.take 3) = "htt" ∧
    (env404.http "http://a.org/x").status_code ≠ 200 ∧
    parse_document env404 "http://a.org/x" = .ok [] :=
  ⟨by decide, by decide, parse_document_non200 env404 "http://a.org/x" (by decide) (by decide)⟩

/-- C9: the claim says the local branch extracts PDF text with the same
per-page capability as the remote branch, so the same PDF yields the same
tokens.  The remote branch calls `extractText`, but the local branch calls
`extractTexit`, an attribute PyPDF2 pages do not have: on the very same
one-page document the remote fetch yields tokens while the local path
raises AttributeError. -/
theorem local_pdf_extraction_diverges :
    envPdf.pdfPages "doc.pdf" = envPdf.pdfPages (envPdf.urlretrieve "http://x/doc.pdf") ∧
    parse_document envPdf "http://x/doc.pdf" = .ok ["PRJEB1", "ok"] ∧
    parse_document envPdf "doc.pdf" = .error ("AttributeError: " ++ "extractTexit") :=
  ⟨rfl, by decide, by decide⟩

theorem processStemGo_none (ebiStatus : String → Nat) (t stem : String) :
    processStemGo ebiStatus t stem none = ⟨[], [], []⟩ := rfl

theorem processStemGo_some (ebiStatus : String → Nat) (t stem : String) (start : Nat) :
    processStemGo ebiStatus t stem (some start)
      = if t.data.length ≥ start + stem.data.length + 1 then
          if (t.data.getD (start + stem.data.length) ' ').isDigit then
            if ebiStatus (ebiUrl (String.mk (t.data.drop start))) = 200
                ∧ 6 ≤ (String.mk (t.data.drop start)).data.length then
              ⟨[stripStudy (String.mk (t.data.drop start))], [],
               [ebiUrl (String.mk (t.data.drop start))]⟩
            else ⟨[], [ebiWarnMsg (String.mk (t.data.drop start))
                         (ebiUrl (String.mk (t.data.drop start)))],
                  [ebiUrl (String.mk (t.data.drop start))]⟩
          else ⟨[], [], []⟩
        else ⟨[], [], []⟩ := rfl

/-! ## Claim theorems: scrape_ebi_ids -/

/-- C5: the intermediate dict of `scrape_ebi_ids` maps each stem of the stem
list to the most recently seen token (the last in sequence order) containing
that stem as a substring; its keys are unduplicated, so at most one token
per stem advances to validation even when several distinct tokens contain
the same stem.  The membership test used (`stem in t`) holds exactly when
the stem occurs at some position of the token. -/
theorem scrape_intermediate_maps_last (tokens proj_id_stems : List String)
    (stem : String) (hmem : stem ∈ proj_id_stems) :
    lookupD (potentialDict tokens proj_id_stems) stem
      = tokens.reverse.find? (fun t => containsSub stem.data t.data) ∧
    ((potentialDict tokens proj_id_stems).map (fun e => e.1)).Nodup ∧
    (∀ u : String, containsSub stem.data u.data = true ↔
      ∃ i, isPrefixL stem.data (u.data.drop i) = true) := by
  refine ⟨?_, ?_, ?_⟩
  · unfold potentialDict
    rw [outer_fold_lookup, if_pos hmem]
    have hnil : lookupD [] stem = none := rfl
    rw [hnil, Option.or_none]
  · unfold potentialDict
    have base : (([] : List (String × String)).map (fun e => e.1)).Nodup := by simp
    refine foldl_preserve _
      (fun d : List (String × String) => ((d.map (fun e => e.1)).Nodup)) ?_ _ _ base
    intro a b ha
    refine foldl_preserve _
      (fun d : List (String × String) => ((d.map (fun e => e.1)).Nodup)) ?_ _ _ ha
    intro a2 b2 ha2
    by_cases hc : containsSub b.data b2.data = true
    · rw [if_pos hc]
      exact keys_dictInsert_nodup _ _ _ ha2
    · rw [if_neg hc]
      exact ha2
  · intro u
    constructor
    · intro h
      unfold containsSub at h
      cases hr : strFindAux stem.data u.data with
      | none => rw [hr] at h; cases h
      | some i => exact ⟨i, (strFindAux_some_firstOcc _ _ _ hr).1⟩
    · rintro ⟨i, hi⟩
      unfold containsSub
      cases hr : strFindAux stem.data u.data with
      | some j => rfl
      | none =>
        rw [strFindAux_none _ _ hr i] at hi
        cases hi

theorem c5_witness :
    "PRJEB" ∈ ["PRJEB"] ∧
    (lookupD (potentialDict ["aPRJEB1", "bPRJEB2"] ["PRJEB"]) "PRJEB"
       = (["aPRJEB1", "bPRJEB2"].reverse.find?
           (fun t => containsSub ("PRJEB" : String).data t.data)) ∧
     ((potentialDict ["aPRJEB1", "bPRJEB2"] ["PRJEB"]).map (fun e => e.1)).Nodup ∧
     (∀ u : String, containsSub ("PRJEB" : String).data u.data = true ↔
        ∃ i, isPrefixL ("PRJEB" : String).data (u.data.drop i) = true)) :=
  ⟨by decide,
   scrape_intermediate_maps_last ["aPRJEB1", "bPRJEB2"] ["PRJEB"] "PRJEB" (by decide)⟩

/-- C6: for a surviving token and a stem, a Candidate is formed — that is,
an existence request is issued — exactly when the stem occurs in the token,
a character exists immediately after the first occurrence, and that
character is numeric; the Candidate is the token suffix starting at the
first occurrence.  When the following character is not numeric, nothing at
all happens for that stem, for every existence-check oracle. -/
theorem scrape_candidate_rules (ebiStatus : String → Nat) (t stem : String) :
    ((processStem ebiStatus t stem).requests ≠ [] →
      ∃ i, firstOcc stem.data t.data i ∧
        i + stem.data.length + 1 ≤ t.data.length ∧
        (t.data.getD (i + stem.data.length) ' ').isDigit = true ∧
        (processStem ebiStatus t stem).requests
          = [ebiUrl (String.mk (t.data.drop i))]) ∧
    (∀ i, firstOcc stem.data t.data i →
      i + stem.data.length + 1 ≤ t.data.length →
      (t.data.getD (i + stem.data.length) ' ').isDigit = true →
      (processStem ebiStatus t stem).requests
        = [ebiUrl (String.mk (t.data.drop i))]) ∧
    (∀ i, firstOcc stem.data t.data i →
      (t.data.getD (i + stem.data.length) ' ').isDigit = false →
      processStem ebiStatus t stem = ⟨[], [], []⟩) := by
  refine ⟨?_, ?_, ?_⟩
  · intro hne
    cases hr : strFindAux stem.data t.data with
    | none =>
      exfalso
      apply hne
      simp only [processStem, hr]
      rw [processStemGo_none]
    | some start =>
      by_cases hlen : t.data.length ≥ start + stem.data.length + 1
      · by_cases hdig : (t.data.getD (start + stem.data.length) ' ').isDigit = true
        · have hreq : (processStem ebiStatus t stem).requests
              = [ebiUrl (String.mk (t.data.drop start))] := by
            simp only [processStem, hr]
            rw [processStemGo_some, if_pos hlen, if_pos hdig]
            split <;> rfl
          exact ⟨start, strFindAux_some_firstOcc _ _ _ hr, hlen, hdig, hreq⟩
        · exfalso
          apply hne
          simp only [processStem, hr]
          rw [processStemGo_some, if_pos hlen, if_neg hdig]
      · exfalso
        apply hne
        simp only [processStem, hr]
        rw [processStemGo_some, if_neg hlen]
  · intro i hocc hlen hdig
    have hr := firstOcc_strFindAux _ _ _ hocc
    simp only [processStem, hr]
    rw [processStemGo_some, if_pos hlen, if_pos hdig]
    split <;> rfl
  · intro i hocc hdig
    have hr := firstOcc_strFindAux _ _ _ hocc
    simp only [processStem, hr]
    rw [processStemGo_some]
    by_cases hlen : t.data.length ≥ i + stem.data.length + 1
    · rw [if_pos hlen, if_neg (by rw [hdig]; exact Bool.false_ne_true)]
    · rw [if_neg hlen]

theorem c6_witness :
    firstOcc ("PRJEB" : String).data ("PRJEB12," : String).data 0 ∧
    0 + ("PRJEB" : String).data.length + 1 ≤ ("PRJEB12," : String).data.length ∧
    (("PRJEB12," : String).data.getD (0 + ("PRJEB" : String).data.length) ' ').isDigit = true ∧
    (processStem (fun _ => 200) "PRJEB12," "PRJEB").requests
      = [ebiUrl (String.mk (("PRJEB12," : String).data.drop 0))] :=
  ⟨⟨by decide, fun j hj => absurd hj (by omega)⟩, by decide, by decide,
   (scrape_candidate_rules (fun _ => 200) "PRJEB12," "PRJEB").2.1 0
     ⟨by decide, fun j hj => absurd hj (by omega)⟩ (by decide) (by decide)⟩

/-- C7 counterexample: the token `"ERP12,"` with stem `"ERP"` and an
always-200 existence oracle yields the candidate `"ERP12,"` (6 characters),
whose stripped form `"ERP12"` has only 5 characters — shorter than 6 after
stripping — yet it IS added to the result list, contradicting the claim
that such a candidate is rejected. -/
theorem c7_counterexample :
    (scrape_ebi_ids (fun _ => 200) ["ERP12,"] ["ERP"]).found = ["ERP12"] ∧
    "ERP12" = stripStudy "ERP12," ∧
    (stripStudy "ERP12,").data.length < 6 := by
  refine ⟨by decide, by decide, by decide⟩

/-- C7 amended: the ≥ 6 length filter is applied to the candidate BEFORE
the trailing punctuation is stripped: a confirmed-existing candidate whose
unstripped length is below 6 is rejected and not added, while one of
unstripped length at least 6 is stripped and added — even when its stripped
form is shorter than 6. -/
theorem scrape_length_filter_prestrip (ebiStatus : String → Nat) (t stem : String)
    (start : Nat)
    (hfind : strFindAux stem.data t.data = some start)
    (hlen : t.data.length ≥ start + stem.data.length + 1)
    (hdig : (t.data.getD (start + stem.data.length) ' ').isDigit = true)
    (h200 : ebiStatus (ebiUrl (String.mk (t.data.drop start))) = 200) :
    ((String.mk (t.data.drop start)).data.length < 6 →
      (scrape_ebi_ids ebiStatus [t] [stem]).found = []) ∧
    (6 ≤ (String.mk (t.data.drop start)).data.length →
      (scrape_ebi_ids ebiStatus [t] [stem]).found
        = [stripStudy (String.mk (t.data.drop start))]) := by
  have hcs : containsSub stem.data t.data = true := by
    unfold containsSub
    rw [hfind]
    rfl
  have hpd : potentialDict [t] [stem] = [(stem, t)] := by
    unfold potentialDict
    simp only [List.foldl_cons, List.foldl_nil]
    rw [if_pos hcs]
    rfl
  have hscrape : scrape_ebi_ids ebiStatus [t] [stem] = processStem ebiStatus t stem := by
    unfold scrape_ebi_ids
    rw [hpd]
    rfl
  constructor
  · intro hshort
    have hshort2 : (List.drop start t.data).length < 6 := hshort
    rw [hscrape]
    simp only [processStem, hfind]
    rw [processStemGo_some, if_pos hlen, if_pos hdig,
        if_neg (by
          rintro ⟨_, h6⟩
          have h6b : 6 ≤ (List.drop start t.data).length := h6
          omega)]
  · intro hlong
    rw [hscrape]
    simp only [processStem, hfind]
    rw [processStemGo_some, if_pos hlen, if_pos hdig, if_pos ⟨h200, hlong⟩]

theorem c7_amended_witness :
    strFindAux ("ERP" : String).data ("ERP12," : String).data = some 0 ∧
    ("ERP12," : String).data.length ≥ 0 + ("ERP" : String).data.length + 1 ∧
    (("ERP12," : String).data.getD (0 + ("ERP" : String).data.length) ' ').isDigit = true ∧
    ((fun _ : String => 200) (ebiUrl (String.mk (("ERP12," : String).data.drop 0))) = 200) ∧
    (6 ≤ (String.mk (("ERP12," : String).data.drop 0)).data.length ∧
     (scrape_ebi_ids (fun _ => 200) ["ERP12,"] ["ERP"]).found
       = [stripStudy (String.mk (("ERP12," : String).data.drop 0))]) :=
  ⟨by decide, by decide, by decide, rfl,
   by decide,
   (scrape_length_filter_prestrip (fun _ => 200) "ERP12," "ERP" 0
      (by decide) (by decide) (by decide) rfl).2 (by decide)⟩

/-- C10: when one token is the most recently seen match of two distinct
stems, it appears once per such stem among the surviving tokens, each
appearance is scanned against every stem, and hence every accession the
token yields is appended once per appearance: the result list counts it at
least twice. -/
theorem scrape_duplicates_from_one_token (ebiStatus : String → Nat)
    (tokens stems : List String) (s1 s2 t a : String)
    (hne : s1 ≠ s2)
    (h1 : (s1, t) ∈ potentialDict tokens stems)
    (h2 : (s2, t) ∈ potentialDict tokens stems)
    (ha : 0 < (stems.flatMap (fun s => (processStem ebiStatus t s).found)).count a) :
    2 ≤ ((potentialDict tokens stems).map (fun e => e.2)).count t ∧
    2 ≤ (scrape_ebi_ids ebiStatus tokens stems).found.count a := by
  have hcnt : 2 ≤ ((potentialDict tokens stems).map (fun e => e.2)).count t := by
    have hpair : ((s1, t) : String × String) ≠ (s2, t) := by
      intro h
      exact hne (congrArg Prod.fst h)
    exact count_map_two _ (s1, t) (s2, t) h1 h2 hpair rfl
  refine ⟨hcnt, ?_⟩
  rw [scrape_found_eq]
  have hmul := count_flatMap_mul ((potentialDict tokens stems).map (fun e => e.2))
    (fun t => stems.flatMap (fun s => (processStem ebiStatus t s).found)) t a
  have : 2 * 1 ≤ ((potentialDict tokens stems).map (fun e => e.2)).count t
      * (stems.flatMap (fun s => (processStem ebiStatus t s).found)).count a :=
    Nat.mul_le_mul hcnt ha
  omega

theorem c10_witness :
    ("PRJEB" : String) ≠ "SRP" ∧
    ("PRJEB", "SRPRJEB12") ∈ potentialDict ["SRPRJEB12"] ["PRJEB", "PRJNA", "ERP", "SRP"] ∧
    ("SRP", "SRPRJEB12") ∈ potentialDict ["SRPRJEB12"] ["PRJEB", "PRJNA", "ERP", "SRP"] ∧
    0 < ((["PRJEB", "PRJNA", "ERP", "SRP"] : List String).flatMap
          (fun s => (processStem (fun _ => 200) "SRPRJEB12" s).found)).count "PRJEB12" ∧
    2 ≤ (scrape_ebi_ids (fun _ => 200) ["SRPRJEB12"]
          ["PRJEB", "PRJNA", "ERP", "SRP"]).found.count "PRJEB12" :=
  ⟨by decide, by decide, by decide, by decide,
   (scrape_duplicates_from_one_token (fun _ => 200) ["SRPRJEB12"]
      ["PRJEB", "PRJNA", "ERP", "SRP"] "PRJEB" "SRP" "SRPRJEB12" "PRJEB12"
      (by decide) (by decide) (by decide) (by decide)).2⟩
